import Mathlib

/-!
Verification of the PowerSync Tauri bridge layer
(`src/guest-js/TauriDBAdapter.ts`) against its natural-language
specification.

The TypeScript source is shallowly embedded:

* JavaScript strings are Lean `String`s processed as `List Char`;
  the regular expressions used by `extractTablesFromSql` are embedded
  as hand-written backtracking matchers with JavaScript leftmost-match
  semantics;
* JavaScript `Set` objects (insertion order, deduplicating) are embedded
  as `List String` with an add-if-absent operation;
* the commands the adapter sends over the Tauri IPC channel are recorded
  in traces of a `Command` inductive; the asynchronous transaction
  machinery is embedded as a function from a callback script (the
  sequence of operations a callback performs, plus whether it returns
  or throws) to the resulting command trace, queued notifications and
  outcome.
-/

/-! ## Character classes and string primitives (JS regex `\s`, `\w`, literals) -/

/-- Whitespace class of the JavaScript regex `\s` (ASCII part; the inputs
considered here are ASCII). -/
def isWs (c : Char) : Bool :=
  c = ' ' || c = '\t' || c = '\n' || c = '\r' || c = '\x0b' || c = '\x0c'

/-- Word-character class of the JavaScript regex `\w`: `[A-Za-z0-9_]`. -/
def isWordChar (c : Char) : Bool :=
  (c ≥ 'a' && c ≤ 'z') || (c ≥ 'A' && c ≤ 'Z') || (c ≥ '0' && c ≤ '9') || c = '_'

/-- Quote class of the regex character class containing double quote,
single quote and backtick. -/
def isQuote (c : Char) : Bool :=
  c = '"' || c = '\x27' || c = '\x60'

/-- Match a literal case-insensitively (JS `/i` flag), returning the rest of
the input on success. -/
def litCI : List Char → List Char → Option (List Char)
  | [], s => some s
  | _ :: _, [] => none
  | p :: ps, c :: cs => if p.toLower = c.toLower then litCI ps cs else none

/-- Match `\s+` greedily: require at least one whitespace character, then
consume the maximal whitespace run. -/
def wsPlus : List Char → Option (List Char)
  | [] => none
  | c :: cs =>
    if isWs c then
      some (cs.dropWhile isWs)
    else none

/-- Match `\w+` greedily, returning the maximal word lexeme and the rest. -/
def wordPlus : List Char → Option (List Char × List Char)
  | [] => none
  | c :: cs =>
    if isWordChar c then
      some (c :: cs.takeWhile isWordChar, cs.dropWhile isWordChar)
    else none

/-- Skip one optional quote character (the regex piece matching an optional
quote); the following `\w+` cannot match a quote, so consuming the quote when
present is equivalent to the JS backtracking behaviour. -/
def skipQuote : List Char → List Char
  | [] => []
  | c :: cs => if isQuote c then cs else c :: cs

/-- Characters of a pattern occur case-insensitively at the start of the
input. -/
def ciStarts (pat s : List Char) : Bool :=
  (litCI pat s).isSome

/-- Pattern occurs case-insensitively anywhere in the input. -/
def containsCI (pat : List Char) : List Char → Bool
  | [] => ciStarts pat []
  | c :: cs => ciStarts pat (c :: cs) || containsCI pat cs

/-- Exact prefix test on character lists. -/
def listStarts : List Char → List Char → Bool
  | [], _ => true
  | _ :: _, [] => false
  | p :: ps, c :: cs => p = c && listStarts ps cs

/-- Exact substring test (JS `String.prototype.includes`). -/
def containsSub (pat : List Char) : List Char → Bool
  | [] => listStarts pat []
  | c :: cs => listStarts pat (c :: cs) || containsSub pat cs

/-- JS `sql.includes(pat)` on Lean strings. -/
def strIncludes (s pat : String) : Bool :=
  containsSub pat.data s.data

/-- JS `s.startsWith(pat)` on Lean strings. -/
def strStarts (s pat : String) : Bool :=
  listStarts pat.data s.data

/-! ## The three table-extraction regexes of `extractTablesFromSql`

The source matches, each with `String.prototype.match` (first, i.e. leftmost,
occurrence, case-insensitive):

* an INSERT pattern: the literal INSERT, whitespace, an optional conflict
  clause (the literal OR, whitespace, a word, whitespace), the literal INTO,
  whitespace, an optional quote, then the captured table word;
* an UPDATE pattern: the literal UPDATE, whitespace, an optional quote, then
  the captured table word;
* a DELETE pattern: the literal DELETE, whitespace, the literal FROM,
  whitespace, an optional quote, then the captured table word.

Within each pattern every quantifier is forced (word characters, whitespace
and quotes are pairwise disjoint classes and each greedy run is followed by a
member of a different class), so the only genuine backtracking point of the
JS engine is the optional conflict-clause group, which is tried first and
skipped on failure of the continuation; the matchers below implement exactly
that. -/

/-- Attempt the INSERT pattern at the current position, returning the
captured table name. -/
def matchInsertAt (s : List Char) : Option String := do
  let r ← litCI ("INSERT").data s
  let r ← wsPlus r
  let intoTail (r : List Char) : Option String := do
    let r ← litCI ("INTO").data r
    let r ← wsPlus r
    let (w, _) ← wordPlus (skipQuote r)
    pure (String.mk w)
  let groupTail : Option String := do
    let g ← litCI ("OR").data r
    let g ← wsPlus g
    let (_, g) ← wordPlus g
    let g ← wsPlus g
    intoTail g
  match groupTail with
  | some w => pure w
  | none => intoTail r

/-- Attempt the UPDATE pattern at the current position, returning the
captured table name. -/
def matchUpdateAt (s : List Char) : Option String := do
  let r ← litCI ("UPDATE").data s
  let r ← wsPlus r
  let (w, _) ← wordPlus (skipQuote r)
  pure (String.mk w)

/-- Attempt the DELETE pattern at the current position, returning the
captured table name. -/
def matchDeleteAt (s : List Char) : Option String := do
  let r ← litCI ("DELETE").data s
  let r ← wsPlus r
  let r ← litCI ("FROM").data r
  let r ← wsPlus r
  let (w, _) ← wordPlus (skipQuote r)
  pure (String.mk w)

/-- JS `String.prototype.match` with a non-global regex: try the pattern at
each position from the left, returning the first success. -/
def findMatch (m : List Char → Option String) : List Char → Option String
  | [] => m []
  | c :: cs =>
    match m (c :: cs) with
    | some w => some w
    | none => findMatch m cs

/-! ## Constants and classification helpers from the source -/

/-- PowerSync internal table name for CRUD entries (`PS_CRUD_TABLE`). -/
def PS_CRUD_TABLE : String := "ps_crud"

/-- PowerSync internal table for sync operations (`PS_OPERATIONS_TABLE`). -/
def PS_OPERATIONS_TABLE : String := "powersync_operations"

/-- Condition under which the source pushes the CRUD marker table after a
detected table: the inline test repeated in all three blocks of
`extractTablesFromSql` (the table does not start with the internal prefix and
is not the operations table). -/
def pushesCrudMarker (table : String) : Bool :=
  !(strStarts table ("ps_")) && !(table = PS_OPERATIONS_TABLE)

/-- Embedding of `extractTablesFromSql`: run the three regexes, pushing for
each match the captured table and, when the table is a logical one, the CRUD
marker table, in source order (INSERT block, UPDATE block, DELETE block). -/
def extractTablesFromSql (sql : String) : List String :=
  let block (m? : Option String) : List String :=
    match m? with
    | some table => table :: (if pushesCrudMarker table then [PS_CRUD_TABLE] else [])
    | none => []
  block (findMatch matchInsertAt sql.data)
    ++ block (findMatch matchUpdateAt sql.data)
    ++ block (findMatch matchDeleteAt sql.data)

/-- Embedding of `isPowerSyncInternalTable`. -/
def isPowerSyncInternalTable (tableName : String) : Bool :=
  tableName = "powersync_operations" ||
    strStarts tableName ("ps_") ||
    strStarts tableName ("ps_data_")

/-- Row operation kinds from the upstream library (`RowUpdateType`). -/
inductive RowUpdateType
  | SQLITE_INSERT
  | SQLITE_UPDATE
  | SQLITE_DELETE
deriving DecidableEq, Repr

/-- JS `trim` (ASCII whitespace, sufficient for the inputs considered). -/
def jsTrim (s : String) : String :=
  String.mk (((s.data.dropWhile isWs).reverse.dropWhile isWs).reverse)

/-- JS `toUpperCase` (ASCII). -/
def jsToUpper (s : String) : String :=
  String.mk (s.data.map Char.toUpper)

/-- Embedding of `getOperationType`: the leading verb of the trimmed,
upper-cased statement. -/
def getOperationType (sql : String) : Option RowUpdateType :=
  let sqlUpper := jsToUpper (jsTrim sql)
  if strStarts sqlUpper ("INSERT") then some RowUpdateType.SQLITE_INSERT
  else if strStarts sqlUpper ("UPDATE") then some RowUpdateType.SQLITE_UPDATE
  else if strStarts sqlUpper ("DELETE") then some RowUpdateType.SQLITE_DELETE
  else none

/-! ## JS `Set` embedding

JavaScript `Set` objects preserve insertion order and deduplicate; they are
embedded as lists with an add-if-absent operation, and `Array.from` is the
identity on this representation. -/

/-- Add an element to a JS set (no-op when already present). -/
def setAdd (l : List String) (x : String) : List String :=
  if x ∈ l then l else l ++ [x]

/-- Add every element of a list to a JS set, in order. -/
def setAddAll (l : List String) (xs : List String) : List String :=
  xs.foldl setAdd l

/-! ## Change Notifier state (`pendingUpdates`, `updateTimer`, `userTables`) -/

/-- Notification-related fields of a `TauriDBAdapter` instance. The
`updateTimer` field of the source (a scheduled timeout handle or null) is
embedded as the Boolean `timerScheduled`. -/
structure NotifierState where
  pendingUpdates : List String
  timerScheduled : Bool
  userTables : List String
deriving DecidableEq, Repr

/-- Embedding of `queueTableUpdate`: add every table to `pendingUpdates` and
schedule a flush timer when none is scheduled. -/
def queueTableUpdate (st : NotifierState) (tables : List String) : NotifierState :=
  { st with
    pendingUpdates := setAddAll st.pendingUpdates tables
    timerScheduled := true }

/-- Embedding of `fireTableUpdates`: clear the timer; when updates are
pending, clear them and emit one batched event carrying them (the event is
returned; with no pending updates no event is emitted). -/
def fireTableUpdates (st : NotifierState) : NotifierState × Option (List String) :=
  let st1 := { st with timerScheduled := false }
  if st1.pendingUpdates.isEmpty then (st1, none)
  else ({ st1 with pendingUpdates := [] }, some st1.pendingUpdates)

/-- Run a synchronous burst of `queueTableUpdate` calls and then let the
single scheduled timer (if any) fire, collecting the emitted events. -/
def runBurstThenTick (st : NotifierState) (bursts : List (List String)) :
    NotifierState × List (List String) :=
  let st1 := bursts.foldl queueTableUpdate st
  if st1.timerScheduled then
    let (st2, ev?) := fireTableUpdates st1
    (st2, ev?.toList)
  else (st1, [])

/-- Embedding of the change-notification section of the non-transactional
`execute` (run after the execute command round trip succeeds): detect tables
from the SQL text; when an internal table is among them and user tables are
registered, queue every registered user table, otherwise queue the detected
tables when any. -/
def executeNotify (st : NotifierState) (sql : String) : NotifierState :=
  let detectedTables := extractTablesFromSql sql
  let modifiedInternalTable := detectedTables.any isPowerSyncInternalTable
  if modifiedInternalTable && !st.userTables.isEmpty then
    queueTableUpdate st st.userTables
  else if !detectedTables.isEmpty then
    queueTableUpdate st detectedTables
  else st

/-! ## Typed value codec (`SqlParam`, `toSqlParam`) -/

/-- Tagged union type for SQL parameters (`SqlParam` in the source). A
JavaScript number is embedded as a rational (see `JSValue.num`). -/
inductive SqlParam
  | null
  | bool (value : Bool)
  | int (value : Int)
  | real (value : ℚ)
  | text (value : String)
  | blob (value : List Nat)
deriving DecidableEq, Repr

/-- JavaScript values as far as `toSqlParam` observes them. A finite number
is embedded as a rational, on which `Number.isInteger` is the predicate that
the denominator is one. The byte-buffer-like constructors each carry the
ordered byte sequence the source converts with `Array.from`. The `obj`
constructor stands for any other object together with the result of
`JSON.stringify` on it: `some s` when serialization yields the string `s`,
`none` when it throws (circular structures). A `bigint` is kept separate
because `JSON.stringify` deterministically throws a TypeError on BigInt
values. -/
inductive JSValue
  | null
  | undefined
  | bool (b : Bool)
  | num (q : ℚ)
  | str (s : String)
  | uint8Array (bytes : List Nat)
  | typedArrayView (bytes : List Nat)
  | arrayBuffer (bytes : List Nat)
  | bigint (n : Int)
  | obj (json : Option String)
deriving DecidableEq, Repr

/-- Embedding of `toSqlParam`. The source is a sequential chain of type
tests whose branches are pairwise disjoint on this value model; `none`
embeds a thrown exception (the only throwing path is the `JSON.stringify`
fallback). -/
def toSqlParam : JSValue → Option SqlParam
  | JSValue.null => some SqlParam.null
  | JSValue.undefined => some SqlParam.null
  | JSValue.bool b => some (SqlParam.bool b)
  | JSValue.num q =>
    some (if q.den = 1 then SqlParam.int q.num else SqlParam.real q)
  | JSValue.str s => some (SqlParam.text s)
  | JSValue.uint8Array bytes => some (SqlParam.blob bytes)
  | JSValue.typedArrayView bytes => some (SqlParam.blob bytes)
  | JSValue.arrayBuffer bytes => some (SqlParam.blob bytes)
  | JSValue.bigint _ => none
  | JSValue.obj json =>
    match json with
    | some s => some (SqlParam.text s)
    | none => none

/-! ## Transaction Coordinator embedding

The `transaction` method of the adapter is embedded as a function from a
callback script to the observable effects. A script lists the operations the
caller-supplied callback performs on the transaction context, in order, and
records whether the callback then returns normally (`ending = none`) or
throws an error (`ending = some err`). Engine round trips for begin,
statements and commit are modelled as succeeding; the rollback command sent
on the implicit-rollback path may fail (`rbErr`), which the source swallows. -/

/-- Commands sent over the IPC channel, as far as the claims observe them. -/
inductive Command
  | beginTx (isWrite : Bool)
  | commitTx (txId : String)
  | rollbackTx (txId : String)
  | executeStmt (sql : String)
  | getAllCmd (sql : String)
  | getOptionalCmd (sql : String)
deriving DecidableEq, Repr

/-- Operations a transaction callback can perform on its context. The `get`
method of the context is `getOptional` plus a null check and sends the same
command. -/
inductive TxOp
  | execute (sql : String)
  | executeRaw (sql : String)
  | getAll (sql : String)
  | getOptional (sql : String)
  | commit
  | rollback
deriving DecidableEq, Repr

/-- Operations that set the `finalized` flag. -/
def opFinalizes : TxOp → Bool
  | TxOp.commit => true
  | TxOp.rollback => true
  | _ => false

/-- Command each context operation sends (each sends exactly one). -/
def opCommand (txId : String) : TxOp → Command
  | TxOp.execute sql => Command.executeStmt sql
  | TxOp.executeRaw sql => Command.getAllCmd sql
  | TxOp.getAll sql => Command.getAllCmd sql
  | TxOp.getOptional sql => Command.getOptionalCmd sql
  | TxOp.commit => Command.commitTx txId
  | TxOp.rollback => Command.rollbackTx txId

/-- Per-transaction local state: the `finalized` flag and the
`modifiedTables` set of the closure. -/
structure TxState where
  finalized : Bool
  modifiedTables : List String
deriving DecidableEq, Repr

/-- Effects of running one or more context operations: the state afterwards,
the commands sent, and the arguments of the `queueTableUpdate` calls made. -/
structure StepOut where
  st : TxState
  cmds : List Command
  queued : List (List String)
deriving DecidableEq, Repr

/-- Embedding of the context operations built inside `transaction`:

* `execute` sends the execute command and adds the tables extracted from the
  SQL text to `modifiedTables`;
* `executeRaw` sends the get-all command and, when the SQL text contains the
  substring naming the control function and user tables are registered, adds
  every registered user table to `modifiedTables`;
* `getAll` and `getOptional` send their command and track nothing;
* `commit` sets `finalized`, sends the commit command and queues the
  accumulated `modifiedTables` when nonempty;
* `rollback` sets `finalized` and sends the rollback command.

No operation consults `finalized` before sending its command. -/
def runTxOp (userTables : List String) (txId : String) (st : TxState) :
    TxOp → StepOut
  | TxOp.execute sql =>
    ⟨{ st with modifiedTables := setAddAll st.modifiedTables (extractTablesFromSql sql) },
      [Command.executeStmt sql], []⟩
  | TxOp.executeRaw sql =>
    ⟨if strIncludes sql ("powersync_control") && !userTables.isEmpty then
        { st with modifiedTables := setAddAll st.modifiedTables userTables }
      else st,
      [Command.getAllCmd sql], []⟩
  | TxOp.getAll sql => ⟨st, [Command.getAllCmd sql], []⟩
  | TxOp.getOptional sql => ⟨st, [Command.getOptionalCmd sql], []⟩
  | TxOp.commit =>
    ⟨{ st with finalized := true }, [Command.commitTx txId],
      if st.modifiedTables.isEmpty then [] else [st.modifiedTables]⟩
  | TxOp.rollback =>
    ⟨{ st with finalized := true }, [Command.rollbackTx txId], []⟩

/-- Run a list of context operations in order, concatenating effects. -/
def runOps (userTables : List String) (txId : String) :
    TxState → List TxOp → StepOut
  | st, [] => ⟨st, [], []⟩
  | st, op :: rest =>
    let o1 := runTxOp userTables txId st op
    let o2 := runOps userTables txId o1.st rest
    ⟨o2.st, o1.cmds ++ o2.cmds, o1.queued ++ o2.queued⟩

/-- Script of a transaction callback: the context operations it performs and
how it ends (`none` = returns normally, `some err` = throws `err`). -/
structure CallbackScript where
  ops : List TxOp
  ending : Option String
deriving DecidableEq, Repr

/-- Observable result of one `transaction` call: the commands sent, the
`queueTableUpdate` calls made, the errors swallowed by the best-effort
rollback, and the outcome surfaced to the caller (`none` = resolves,
`some err` = rejects with `err`). -/
structure RunResult where
  trace : List Command
  queueEvents : List (List String)
  swallowed : List String
  outcome : Option String
deriving DecidableEq, Repr

/-- Embedding of the private `transaction` method: send the begin command,
run the callback, then: on normal return, commit and queue the accumulated
tables unless the callback already finalized; on a thrown error, send a
best-effort rollback unless already finalized (a failure `rbErr` of that
rollback is swallowed) and rethrow the original error. -/
def runTransaction (userTables : List String) (txId : String) (isWrite : Bool)
    (script : CallbackScript) (rbErr : Option String) : RunResult :=
  let o := runOps userTables txId ⟨false, []⟩ script.ops
  match script.ending with
  | none =>
    if o.st.finalized then
      ⟨Command.beginTx isWrite :: o.cmds, o.queued, [], none⟩
    else
      ⟨Command.beginTx isWrite :: (o.cmds ++ [Command.commitTx txId]),
        o.queued ++ (if o.st.modifiedTables.isEmpty then [] else [o.st.modifiedTables]),
        [], none⟩
  | some err =>
    if o.st.finalized then
      ⟨Command.beginTx isWrite :: o.cmds, o.queued, [], some err⟩
    else
      ⟨Command.beginTx isWrite :: (o.cmds ++ [Command.rollbackTx txId]),
        o.queued, rbErr.toList, some err⟩

/-! ## Helper lemmas on the JS set embedding -/

theorem mem_setAdd {l : List String} {x y : String} :
    x ∈ setAdd l y ↔ x ∈ l ∨ x = y := by
  unfold setAdd
  by_cases h : y ∈ l
  · simp only [if_pos h]
    constructor
    · exact Or.inl
    · rintro (hx | rfl)
      · exact hx
      · exact h
  · simp [if_neg h]

theorem mem_setAddAll {xs : List String} :
    ∀ {l : List String} {x : String}, x ∈ setAddAll l xs ↔ x ∈ l ∨ x ∈ xs := by
  induction xs with
  | nil => simp [setAddAll]
  | cons y ys ih =>
    intro l x
    have h1 : setAddAll l (y :: ys) = setAddAll (setAdd l y) ys := rfl
    rw [h1, ih, mem_setAdd]
    simp only [List.mem_cons]
    tauto

theorem nodup_setAdd {l : List String} {y : String} (h : l.Nodup) :
    (setAdd l y).Nodup := by
  unfold setAdd
  split
  · exact h
  · rename_i hy
    simp [List.nodup_append, h, hy]

theorem nodup_setAddAll {xs : List String} :
    ∀ {l : List String}, l.Nodup → (setAddAll l xs).Nodup := by
  induction xs with
  | nil => exact fun h => h
  | cons y ys ih => exact fun h => ih (nodup_setAdd h)

theorem setAddAll_append (l a b : List String) :
    setAddAll l (a ++ b) = setAddAll (setAddAll l a) b := by
  simp [setAddAll, List.foldl_append]

theorem foldl_queueTableUpdate (bursts : List (List String)) :
    ∀ st : NotifierState,
      bursts.foldl queueTableUpdate st =
        ⟨setAddAll st.pendingUpdates bursts.flatten,
          st.timerScheduled || !bursts.isEmpty, st.userTables⟩ := by
  induction bursts with
  | nil => intro st; simp [setAddAll]
  | cons b rest ih =>
    intro st
    simp only [List.foldl_cons, List.flatten_cons, ih, queueTableUpdate,
      setAddAll_append, List.isEmpty_cons, Bool.not_false, Bool.or_true,
      Bool.true_or]

/-! ## Helper lemmas on the transaction runner -/

/-- Commit commands. -/
def isCommitCmd : Command → Bool
  | Command.commitTx _ => true
  | _ => false

/-- Rollback commands. -/
def isRollbackCmd : Command → Bool
  | Command.rollbackTx _ => true
  | _ => false

/-- Finalize commands (commit or rollback). -/
def isFinalizeCmd (c : Command) : Bool := isCommitCmd c || isRollbackCmd c

theorem runTxOp_cmds (ut : List String) (txId : String) (st : TxState) (op : TxOp) :
    (runTxOp ut txId st op).cmds = [opCommand txId op] := by
  cases op <;> rfl

theorem runOps_cmds (ut : List String) (txId : String) (ops : List TxOp) :
    ∀ st : TxState, (runOps ut txId st ops).cmds = ops.map (opCommand txId) := by
  induction ops with
  | nil => intro st; rfl
  | cons op rest ih =>
    intro st
    simp [runOps, runTxOp_cmds, ih]

theorem runTxOp_finalized (ut : List String) (txId : String) (st : TxState) (op : TxOp) :
    (runTxOp ut txId st op).st.finalized = (st.finalized || opFinalizes op) := by
  cases op with
  | executeRaw sql =>
    simp only [runTxOp, opFinalizes, Bool.or_false]
    split <;> rfl
  | _ => simp [runTxOp, opFinalizes]

theorem runOps_finalized (ut : List String) (txId : String) (ops : List TxOp) :
    ∀ st : TxState,
      (runOps ut txId st ops).st.finalized = (st.finalized || ops.any opFinalizes) := by
  induction ops with
  | nil => intro st; simp [runOps]
  | cons op rest ih =>
    intro st
    simp [runOps, ih, runTxOp_finalized, Bool.or_assoc]

theorem opFinalizes_false_of_all {ops : List TxOp}
    (h : ops.all (fun o => !opFinalizes o) = true) :
    ∀ o ∈ ops, opFinalizes o = false := by
  intro o ho
  have := List.all_eq_true.mp h o ho
  simpa using this

theorem any_opFinalizes_false {ops : List TxOp}
    (h : ops.all (fun o => !opFinalizes o) = true) :
    ops.any opFinalizes = false := by
  rw [List.any_eq_false]
  intro o ho
  simp [opFinalizes_false_of_all h o ho]

theorem runOps_queued_nil (ut : List String) (txId : String) :
    ∀ {ops : List TxOp}, ops.all (fun o => !opFinalizes o) = true →
      ∀ st : TxState, (runOps ut txId st ops).queued = [] := by
  intro ops
  induction ops with
  | nil => intro _ st; rfl
  | cons op rest ih =>
    intro h st
    rw [List.all_cons, Bool.and_eq_true] at h
    obtain ⟨h1, h2⟩ := h
    cases op with
    | commit => simp [opFinalizes] at h1
    | rollback => simp [opFinalizes] at h1
    | execute sql => simp [runOps, runTxOp, ih h2]
    | executeRaw sql => simp [runOps, runTxOp, ih h2]
    | getAll sql => simp [runOps, runTxOp, ih h2]
    | getOptional sql => simp [runOps, runTxOp, ih h2]

theorem countP_map_opCommand (txId : String) (p : Command → Bool) (ops : List TxOp) :
    (ops.map (opCommand txId)).countP p = ops.countP (fun o => p (opCommand txId o)) := by
  rw [List.countP_map]
  rfl

theorem isFinalizeCmd_opCommand (txId : String) (o : TxOp) :
    isFinalizeCmd (opCommand txId o) = opFinalizes o := by
  cases o <;> rfl

theorem countP_map_zero (txId : String) {ops : List TxOp} (p : Command → Bool)
    (h : ∀ o ∈ ops, p (opCommand txId o) = false) :
    (ops.map (opCommand txId)).countP p = 0 := by
  rw [List.countP_eq_zero]
  intro c hc
  rw [List.mem_map] at hc
  obtain ⟨o, ho, rfl⟩ := hc
  simp [h o ho]

theorem runOps_append (ut : List String) (txId : String) :
    ∀ (st : TxState) (a b : List TxOp),
      runOps ut txId st (a ++ b) =
        ⟨(runOps ut txId (runOps ut txId st a).st b).st,
          (runOps ut txId st a).cmds ++ (runOps ut txId (runOps ut txId st a).st b).cmds,
          (runOps ut txId st a).queued ++
            (runOps ut txId (runOps ut txId st a).st b).queued⟩ := by
  intro st a
  induction a generalizing st with
  | nil => intro b; simp [runOps]
  | cons op rest ih =>
    intro b
    simp [runOps, ih, List.append_assoc]

theorem isCommitCmd_opCommand {o : TxOp} (h : opFinalizes o = false) (txId : String) :
    isCommitCmd (opCommand txId o) = false := by
  cases o <;> simp_all [opFinalizes, opCommand, isCommitCmd]

theorem isRollbackCmd_opCommand {o : TxOp} (h : opFinalizes o = false) (txId : String) :
    isRollbackCmd (opCommand txId o) = false := by
  cases o <;> simp_all [opFinalizes, opCommand, isRollbackCmd]

/-- Equation of `runTransaction` for a callback that returns normally. -/
theorem runTransaction_none (ut : List String) (txId : String) (w : Bool)
    (ops : List TxOp) (rbErr : Option String) :
    runTransaction ut txId w ⟨ops, none⟩ rbErr =
      if (runOps ut txId ⟨false, []⟩ ops).st.finalized then
        ⟨Command.beginTx w :: (runOps ut txId ⟨false, []⟩ ops).cmds,
          (runOps ut txId ⟨false, []⟩ ops).queued, [], none⟩
      else
        ⟨Command.beginTx w ::
            ((runOps ut txId ⟨false, []⟩ ops).cmds ++ [Command.commitTx txId]),
          (runOps ut txId ⟨false, []⟩ ops).queued ++
            (if (runOps ut txId ⟨false, []⟩ ops).st.modifiedTables.isEmpty then []
              else [(runOps ut txId ⟨false, []⟩ ops).st.modifiedTables]),
          [], none⟩ := rfl

/-- Equation of `runTransaction` for a callback that throws. -/
theorem runTransaction_some (ut : List String) (txId : String) (w : Bool)
    (ops : List TxOp) (err : String) (rbErr : Option String) :
    runTransaction ut txId w ⟨ops, some err⟩ rbErr =
      if (runOps ut txId ⟨false, []⟩ ops).st.finalized then
        ⟨Command.beginTx w :: (runOps ut txId ⟨false, []⟩ ops).cmds,
          (runOps ut txId ⟨false, []⟩ ops).queued, [], some err⟩
      else
        ⟨Command.beginTx w ::
            ((runOps ut txId ⟨false, []⟩ ops).cmds ++ [Command.rollbackTx txId]),
          (runOps ut txId ⟨false, []⟩ ops).queued, rbErr.toList, some err⟩ := rfl

/-- C1: for every transaction run by the coordinator, when the callback
performs no explicit finalize and returns normally the command trace carries
exactly one commit and no rollback; when it performs no explicit finalize
and throws, exactly one rollback and no commit; and when the callback itself
finalized, the coordinator sends no further finalize command (the finalize
commands of the trace are exactly the ones the callback operations sent). -/
theorem C1_coordinator_finalize (ut : List String) (txId : String) (w : Bool)
    (ops : List TxOp) (rbErr : Option String) :
    (ops.all (fun o => !opFinalizes o) = true →
      ((runTransaction ut txId w ⟨ops, none⟩ rbErr).trace.countP isCommitCmd = 1 ∧
        (runTransaction ut txId w ⟨ops, none⟩ rbErr).trace.countP isRollbackCmd = 0) ∧
      ∀ err : String,
        (runTransaction ut txId w ⟨ops, some err⟩ rbErr).trace.countP isRollbackCmd = 1 ∧
        (runTransaction ut txId w ⟨ops, some err⟩ rbErr).trace.countP isCommitCmd = 0) ∧
    (∀ ending : Option String,
      ops.any opFinalizes = true →
      (runTransaction ut txId w ⟨ops, ending⟩ rbErr).trace.countP isFinalizeCmd =
        ops.countP opFinalizes) := by
  constructor
  · intro h
    have hops := opFinalizes_false_of_all h
    have hfin : (runOps ut txId ⟨false, []⟩ ops).st.finalized = false := by
      rw [runOps_finalized]
      simp [any_opFinalizes_false h]
    have hc0 : ((runOps ut txId ⟨false, []⟩ ops).cmds).countP isCommitCmd = 0 := by
      rw [runOps_cmds]
      exact countP_map_zero txId isCommitCmd
        (fun o ho => isCommitCmd_opCommand (hops o ho) txId)
    have hr0 : ((runOps ut txId ⟨false, []⟩ ops).cmds).countP isRollbackCmd = 0 := by
      rw [runOps_cmds]
      exact countP_map_zero txId isRollbackCmd
        (fun o ho => isRollbackCmd_opCommand (hops o ho) txId)
    refine ⟨⟨?_, ?_⟩, ?_⟩
    · rw [runTransaction_none, if_neg (by simp [hfin])]
      simp [List.countP_cons, List.countP_append, hc0, isCommitCmd]
    · rw [runTransaction_none, if_neg (by simp [hfin])]
      simp [List.countP_cons, List.countP_append, hr0, isRollbackCmd]
    · intro err
      rw [runTransaction_some, if_neg (by simp [hfin])]
      constructor
      · simp [List.countP_cons, List.countP_append, hr0, isRollbackCmd]
      · simp [List.countP_cons, List.countP_append, hc0, isCommitCmd]
  · intro ending hany
    have hfin : (runOps ut txId ⟨false, []⟩ ops).st.finalized = true := by
      rw [runOps_finalized]
      simp [hany]
    have hmapfin : ((runOps ut txId ⟨false, []⟩ ops).cmds).countP isFinalizeCmd =
        ops.countP opFinalizes := by
      rw [runOps_cmds, countP_map_opCommand]
      congr 1
      funext o
      exact isFinalizeCmd_opCommand txId o
    cases ending with
    | none =>
      rw [runTransaction_none, if_pos (by simp [hfin])]
      simp only [List.countP_cons]
      rw [hmapfin]
      simp [isFinalizeCmd, isCommitCmd, isRollbackCmd]
    | some err =>
      rw [runTransaction_some, if_pos (by simp [hfin])]
      simp only [List.countP_cons]
      rw [hmapfin]
      simp [isFinalizeCmd, isCommitCmd, isRollbackCmd]

/-- Witness for C1 at a concrete input: a callback that executes one
statement and returns normally; the trace carries exactly one commit
command and no rollback command. -/
theorem C1_coordinator_finalize_witness :
    (runTransaction [] ("tx1") true ⟨[TxOp.execute ("SELECT 1")], none⟩ none).trace.countP
        isCommitCmd = 1 ∧
    (runTransaction [] ("tx1") true ⟨[TxOp.execute ("SELECT 1")], none⟩ none).trace.countP
        isRollbackCmd = 0 :=
  ((C1_coordinator_finalize [] ("tx1") true [TxOp.execute ("SELECT 1")] none).1
    (by decide)).1

/-- C2: when the callback throws without having explicitly finalized, the
transaction call rejects with the original callback error whatever the
best-effort rollback does; a rollback failure is only recorded as swallowed
and never becomes the outcome. -/
theorem C2_rollback_error_swallowed (ut : List String) (txId : String) (w : Bool)
    (ops : List TxOp) (err : String) (rbErr : Option String)
    (h : ops.all (fun o => !opFinalizes o) = true) :
    (runTransaction ut txId w ⟨ops, some err⟩ rbErr).outcome = some err ∧
    (runTransaction ut txId w ⟨ops, some err⟩ rbErr).swallowed = rbErr.toList := by
  have hfin : (runOps ut txId ⟨false, []⟩ ops).st.finalized = false := by
    rw [runOps_finalized]
    simp [any_opFinalizes_false h]
  rw [runTransaction_some, if_neg (by simp [hfin])]
  exact ⟨rfl, rfl⟩

/-- Witness for C2 at a concrete input: the callback throws and the implicit
rollback itself fails; the caller still sees the callback error and the
rollback error is only swallowed. -/
theorem C2_rollback_error_swallowed_witness :
    (runTransaction [] ("tx1") true ⟨[TxOp.execute ("SELECT 1")], some ("boom")⟩
        (some ("rbfail"))).outcome = some ("boom") ∧
    (runTransaction [] ("tx1") true ⟨[TxOp.execute ("SELECT 1")], some ("boom")⟩
        (some ("rbfail"))).swallowed = [("rbfail")] :=
  C2_rollback_error_swallowed [] ("tx1") true [TxOp.execute ("SELECT 1")] ("boom")
    (some ("rbfail")) (by decide)

/-- C3 counterexample: a callback that rolls back and then calls execute on
the same context; the statement command is still sent to the Engine after
the transaction was finalized, and the call resolves without any error. -/
theorem C3_after_finalize_counterexample :
    (runTransaction [] ("tx1") true
        ⟨[TxOp.rollback, TxOp.execute ("SELECT 1")], none⟩ none).trace =
      [Command.beginTx true, Command.rollbackTx ("tx1"),
        Command.executeStmt ("SELECT 1")] ∧
    (runTransaction [] ("tx1") true
        ⟨[TxOp.rollback, TxOp.execute ("SELECT 1")], none⟩ none).outcome = none := by
  constructor
  · rfl
  · rfl

/-- C3 amended: context statement operations are not guarded by the
finalized flag: every callback operation sends exactly its command whatever
the transaction state (in particular after an explicit commit or rollback),
and a callback that returns normally never surfaces a fail-fast error. -/
theorem C3_statement_ops_unguarded (ut : List String) (txId : String)
    (st : TxState) (ops : List TxOp) (w : Bool) (rbErr : Option String) :
    (runOps ut txId st ops).cmds = ops.map (opCommand txId) ∧
    (runTransaction ut txId w ⟨ops, none⟩ rbErr).outcome = none := by
  refine ⟨runOps_cmds ut txId ops st, ?_⟩
  rw [runTransaction_none]
  split <;> rfl

/-! ## Nested transaction calls (for the single-flight question)

The private `transaction` method consults no per-adapter state before
sending its begin command, so a second `readTransaction` or
`writeTransaction` call made while one transaction is live simply runs the
same protocol again. The callback operation type below additionally allows
an awaited nested call of the adapter transaction method whose own callback
performs the listed operations and completes. -/

/-- Outer-callback operations: a plain context operation, or an awaited
nested transaction call on the same adapter. -/
inductive TxOpN
  | basic (op : TxOp)
  | nestedTx (isWrite : Bool) (txId : String) (inner : CallbackScript)

/-- Run one outer-callback operation. A nested transaction call runs the
full transaction protocol with its own fresh local state; the outer local
state is untouched because every invocation of the private transaction
method allocates its own finalized flag and modifiedTables set. -/
def runOpN (ut : List String) (txId : String) (st : TxState) : TxOpN → StepOut
  | TxOpN.basic op => runTxOp ut txId st op
  | TxOpN.nestedTx w txId2 inner =>
    ⟨st, (runTransaction ut txId2 w inner none).trace,
      (runTransaction ut txId2 w inner none).queueEvents⟩

/-- Run a list of outer-callback operations in order. -/
def runOpsN (ut : List String) (txId : String) :
    TxState → List TxOpN → StepOut
  | st, [] => ⟨st, [], []⟩
  | st, op :: rest =>
    let o1 := runOpN ut txId st op
    let o2 := runOpsN ut txId o1.st rest
    ⟨o2.st, o1.cmds ++ o2.cmds, o1.queued ++ o2.queued⟩

/-- Embedding of a transaction call whose callback may itself call the
adapter transaction methods; identical to `runTransaction` except for the
operation type. -/
def runTransactionN (ut : List String) (txId : String) (isWrite : Bool)
    (ops : List TxOpN) (ending : Option String) (rbErr : Option String) : RunResult :=
  let o := runOpsN ut txId ⟨false, []⟩ ops
  match ending with
  | none =>
    if o.st.finalized then
      ⟨Command.beginTx isWrite :: o.cmds, o.queued, [], none⟩
    else
      ⟨Command.beginTx isWrite :: (o.cmds ++ [Command.commitTx txId]),
        o.queued ++ (if o.st.modifiedTables.isEmpty then [] else [o.st.modifiedTables]),
        [], none⟩
  | some err =>
    if o.st.finalized then
      ⟨Command.beginTx isWrite :: o.cmds, o.queued, [], some err⟩
    else
      ⟨Command.beginTx isWrite :: (o.cmds ++ [Command.rollbackTx txId]),
        o.queued, rbErr.toList, some err⟩

/-- C4 counterexample: a second transaction call made while the first is
live (here, awaited inside the callback of the first). The bridge neither
rejects it (the run resolves without error) nor queues it until the first
finalizes: the begin command and the statement of the second transaction
are sent strictly between the begin and the commit of the first. -/
theorem C4_second_begin_counterexample :
    (runTransactionN ["todos"] ("tx1") true
        [TxOpN.nestedTx true ("tx2")
          ⟨[TxOp.execute ("INSERT INTO todos(id) VALUES(1)")], none⟩]
        none none).trace =
      [Command.beginTx true, Command.beginTx true,
        Command.executeStmt ("INSERT INTO todos(id) VALUES(1)"),
        Command.commitTx ("tx2"), Command.commitTx ("tx1")] ∧
    (runTransactionN ["todos"] ("tx1") true
        [TxOpN.nestedTx true ("tx2")
          ⟨[TxOp.execute ("INSERT INTO todos(id) VALUES(1)")], none⟩]
        none none).outcome = none := by
  constructor
  · rfl
  · rfl

/-- C4 amended: the bridge enforces no single-flight: a transaction call
whose callback awaits a nested transaction call sends the begin command of
the nested transaction (followed by the whole nested protocol) strictly
between its own begin and commit commands, and resolves without error. -/
theorem C4_no_single_flight (ut : List String) (txId txId2 : String)
    (w w2 : Bool) (iops : List TxOp) (rbErr : Option String) :
    (runTransactionN ut txId w [TxOpN.nestedTx w2 txId2 ⟨iops, none⟩] none rbErr).trace =
      Command.beginTx w ::
        ((runTransaction ut txId2 w2 ⟨iops, none⟩ none).trace ++
          [Command.commitTx txId]) ∧
    (∃ rest, (runTransaction ut txId2 w2 ⟨iops, none⟩ none).trace =
      Command.beginTx w2 :: rest) ∧
    (runTransactionN ut txId w [TxOpN.nestedTx w2 txId2 ⟨iops, none⟩] none rbErr).outcome =
      none := by
  refine ⟨?_, ?_, ?_⟩
  · simp [runTransactionN, runOpsN, runOpN]
  · rw [runTransaction_none]
    split
    · exact ⟨_, rfl⟩
    · exact ⟨_, rfl⟩
  · simp [runTransactionN, runOpsN, runOpN]

/-- C5: a non-transactional execute whose SQL text is classified as touching
an internal bookkeeping table queues, given at least one registered user
table, every registered user table for notification. -/
theorem C5_internal_fanout (st : NotifierState) (sql : String)
    (hint : (extractTablesFromSql sql).any isPowerSyncInternalTable = true)
    (hut : st.userTables ≠ []) :
    ∀ u ∈ st.userTables, u ∈ (executeNotify st sql).pendingUpdates := by
  intro u hu
  have hne : st.userTables.isEmpty = false := by
    cases hlist : st.userTables with
    | nil => exact absurd hlist hut
    | cons a l => rfl
  have hcond : executeNotify st sql = queueTableUpdate st st.userTables := by
    unfold executeNotify
    simp [hint, hne]
  rw [hcond]
  exact mem_setAddAll.mpr (Or.inr hu)

/-- Witness for C5 at a concrete input: an insert into the sync-operations
table with two registered user tables queues the user table names. -/
theorem C5_internal_fanout_witness :
    ("todos") ∈ (executeNotify ⟨[], false, ["todos", "lists"]⟩
        ("INSERT INTO powersync_operations(op) VALUES(1)")).pendingUpdates :=
  C5_internal_fanout ⟨[], false, ["todos", "lists"]⟩
    ("INSERT INTO powersync_operations(op) VALUES(1)") (by decide) (by decide)
    ("todos") (by decide)

/-- C6: on the commit path (implicit on normal return, or explicit commit)
the tables accumulated over the transaction are queued exactly once when the
set is nonempty; on the rollback path (implicit on a thrown error, or
explicit rollback) nothing is queued. -/
theorem C6_flush_only_on_commit (ut : List String) (txId : String) (w : Bool)
    (ops : List TxOp) (rbErr : Option String)
    (h : ops.all (fun o => !opFinalizes o) = true) :
    ((runTransaction ut txId w ⟨ops, none⟩ rbErr).queueEvents =
      if (runOps ut txId ⟨false, []⟩ ops).st.modifiedTables.isEmpty then []
      else [(runOps ut txId ⟨false, []⟩ ops).st.modifiedTables]) ∧
    (∀ err : String,
      (runTransaction ut txId w ⟨ops, some err⟩ rbErr).queueEvents = []) ∧
    (∀ ending : Option String,
      (runTransaction ut txId w ⟨ops ++ [TxOp.commit], ending⟩ rbErr).queueEvents =
        if (runOps ut txId ⟨false, []⟩ ops).st.modifiedTables.isEmpty then []
        else [(runOps ut txId ⟨false, []⟩ ops).st.modifiedTables]) ∧
    (∀ ending : Option String,
      (runTransaction ut txId w ⟨ops ++ [TxOp.rollback], ending⟩ rbErr).queueEvents = []) := by
  have hany := any_opFinalizes_false h
  have hfin : (runOps ut txId ⟨false, []⟩ ops).st.finalized = false := by
    rw [runOps_finalized]
    simp [hany]
  have hq := runOps_queued_nil ut txId h ⟨false, []⟩
  refine ⟨?_, ?_, ?_, ?_⟩
  · rw [runTransaction_none, if_neg (by simp [hfin])]
    simp [hq]
  · intro err
    rw [runTransaction_some, if_neg (by simp [hfin])]
    simp [hq]
  · intro ending
    have happ := runOps_append ut txId ⟨false, []⟩ ops [TxOp.commit]
    have hfin2 : (runOps ut txId ⟨false, []⟩ (ops ++ [TxOp.commit])).st.finalized = true := by
      rw [runOps_finalized]
      simp [List.any_append, opFinalizes]
    have hq2 : (runOps ut txId ⟨false, []⟩ (ops ++ [TxOp.commit])).queued =
        if (runOps ut txId ⟨false, []⟩ ops).st.modifiedTables.isEmpty then []
        else [(runOps ut txId ⟨false, []⟩ ops).st.modifiedTables] := by
      rw [happ]
      simp [hq, runOps, runTxOp]
    cases ending with
    | none =>
      rw [runTransaction_none, if_pos (by simp [hfin2])]
      exact hq2
    | some err =>
      rw [runTransaction_some, if_pos (by simp [hfin2])]
      exact hq2
  · intro ending
    have happ := runOps_append ut txId ⟨false, []⟩ ops [TxOp.rollback]
    have hfin2 : (runOps ut txId ⟨false, []⟩ (ops ++ [TxOp.rollback])).st.finalized = true := by
      rw [runOps_finalized]
      simp [List.any_append, opFinalizes]
    have hq2 : (runOps ut txId ⟨false, []⟩ (ops ++ [TxOp.rollback])).queued = [] := by
      rw [happ]
      simp [hq, runOps, runTxOp]
    cases ending with
    | none =>
      rw [runTransaction_none, if_pos (by simp [hfin2])]
      exact hq2
    | some err =>
      rw [runTransaction_some, if_pos (by simp [hfin2])]
      exact hq2

/-- Witness for C6 at a concrete input: one insert inside the transaction
and a normal return queue the accumulated tables exactly once. -/
theorem C6_flush_only_on_commit_witness :
    (runTransaction [] ("tx1") true
        ⟨[TxOp.execute ("INSERT INTO todos(id) VALUES(1)")], none⟩ none).queueEvents =
      [["todos", "ps_crud"]] := by
  have h := (C6_flush_only_on_commit [] ("tx1") true
    [TxOp.execute ("INSERT INTO todos(id) VALUES(1)")] none (by decide)).1
  rw [h]
  decide

/-- C7: a synchronous burst of enqueue calls schedules one flush in total
(the burst folds to a single enqueue of the concatenation), and the tick
then fires exactly one event whose table list is the duplicate-free union of
all enqueued names. -/
theorem C7_burst_coalescing (st : NotifierState) (bursts : List (List String))
    (hp : st.pendingUpdates = []) (hb : bursts.flatten ≠ []) :
    bursts.foldl queueTableUpdate st = queueTableUpdate st bursts.flatten ∧
    (runBurstThenTick st bursts).2 = [setAddAll [] bursts.flatten] ∧
    (setAddAll [] bursts.flatten).Nodup ∧
    (∀ x, x ∈ setAddAll [] bursts.flatten ↔ x ∈ bursts.flatten) := by
  have hbne : bursts ≠ [] := by
    intro hcon
    rw [hcon] at hb
    exact hb rfl
  have hbe : bursts.isEmpty = false := by
    cases bursts with
    | nil => exact absurd rfl hbne
    | cons b rest => rfl
  have hfold := foldl_queueTableUpdate bursts st
  have hmem : ∃ y, y ∈ setAddAll ([] : List String) bursts.flatten := by
    cases hfl : bursts.flatten with
    | nil => exact absurd hfl hb
    | cons y ys => exact ⟨y, mem_setAddAll.mpr (Or.inr (List.mem_cons_self y ys))⟩
  have hne : (setAddAll ([] : List String) bursts.flatten).isEmpty = false := by
    obtain ⟨y, hy⟩ := hmem
    cases hempty : setAddAll ([] : List String) bursts.flatten with
    | nil =>
      rw [hempty] at hy
      cases hy
    | cons z zs => rfl
  refine ⟨?_, ?_, nodup_setAddAll List.nodup_nil, fun x => mem_setAddAll.trans (by simp)⟩
  · rw [hfold]
    simp [queueTableUpdate, hbe]
  · unfold runBurstThenTick
    rw [hfold, hp]
    simp [hbe, fireTableUpdates, hne]

/-- Witness for C7 at a concrete input: three enqueues of the same table
name in one burst yield one event containing the name once. -/
theorem C7_burst_coalescing_witness :
    (runBurstThenTick ⟨[], false, []⟩ [["todos"], ["todos"], ["todos"]]).2 =
      [["todos"]] := by
  have h := (C7_burst_coalescing ⟨[], false, []⟩ [["todos"], ["todos"], ["todos"]]
    rfl (by decide)).2.1
  rw [h]
  decide

/-- C8 counterexample: the encoder is not total. A BigInt value passes every
type test and reaches the JSON fallback, and the ECMAScript specification of
JSON serialization throws a TypeError on BigInt values, embedded here as the
`none` result. -/
theorem C8_bigint_counterexample : toSqlParam (JSValue.bigint 1) = none := rfl

/-- C8 amended: the encoder is deterministic and returns exactly one tagged
variant per the stated classification on every input whose JSON fallback
serialization succeeds (a number encoding as the int variant exactly when it
is mathematically integral), and it throws exactly on the inputs whose
fallback serialization throws: BigInt values and circular objects. -/
theorem C8_encoder_classification (b : Bool) (q : ℚ) (s j : String)
    (bytes : List Nat) (n : Int) :
    toSqlParam JSValue.null = some SqlParam.null ∧
    toSqlParam JSValue.undefined = some SqlParam.null ∧
    toSqlParam (JSValue.bool b) = some (SqlParam.bool b) ∧
    toSqlParam (JSValue.str s) = some (SqlParam.text s) ∧
    toSqlParam (JSValue.uint8Array bytes) = some (SqlParam.blob bytes) ∧
    toSqlParam (JSValue.typedArrayView bytes) = some (SqlParam.blob bytes) ∧
    toSqlParam (JSValue.arrayBuffer bytes) = some (SqlParam.blob bytes) ∧
    toSqlParam (JSValue.obj (some j)) = some (SqlParam.text j) ∧
    toSqlParam (JSValue.bigint n) = none ∧
    toSqlParam (JSValue.obj none) = none ∧
    (toSqlParam (JSValue.num q) = some (SqlParam.int q.num) ↔ ∃ m : ℤ, q = (m : ℚ)) ∧
    (toSqlParam (JSValue.num q) = some (SqlParam.real q) ↔ ¬∃ m : ℤ, q = (m : ℚ)) := by
  refine ⟨rfl, rfl, rfl, rfl, rfl, rfl, rfl, rfl, rfl, rfl, ?_, ?_⟩
  · constructor
    · intro heq
      by_cases hden : q.den = 1
      · exact ⟨q.num, ((Rat.den_eq_one_iff q).mp hden).symm⟩
      · exfalso
        simp [toSqlParam, hden] at heq
    · rintro ⟨m, rfl⟩
      have hden : ((m : ℚ)).den = 1 := Rat.den_intCast m
      simp [toSqlParam, hden]
  · constructor
    · intro heq
      rintro ⟨m, rfl⟩
      have hden : ((m : ℚ)).den = 1 := Rat.den_intCast m
      simp [toSqlParam, hden] at heq
    · intro hnot
      have hden : q.den ≠ 1 := by
        intro hden
        exact hnot ⟨q.num, ((Rat.den_eq_one_iff q).mp hden).symm⟩
      simp [toSqlParam, hden]

/-- Witness for C8 at a concrete input: the integral number three encodes as
the int variant. -/
theorem C8_encoder_classification_witness :
    toSqlParam (JSValue.num 3) = some (SqlParam.int (3 : ℚ).num) := by
  obtain ⟨-, -, -, -, -, -, -, -, -, -, hiff, -⟩ :=
    C8_encoder_classification true 3 ("") ("") [] 0
  exact hiff.mpr ⟨3, by norm_num⟩

/-! ## Lemmas connecting the matchers to plain text properties -/

theorem matchInsertAt_none {s : List Char}
    (hs : litCI ("INSERT").data s = none) : matchInsertAt s = none := by
  unfold matchInsertAt
  rw [hs]
  rfl

theorem matchUpdateAt_none {s : List Char}
    (hs : litCI ("UPDATE").data s = none) : matchUpdateAt s = none := by
  unfold matchUpdateAt
  rw [hs]
  rfl

theorem matchDeleteAt_none {s : List Char}
    (hs : litCI ("DELETE").data s = none) : matchDeleteAt s = none := by
  unfold matchDeleteAt
  rw [hs]
  rfl

theorem findMatch_none_of_not_containsCI (lit : List Char)
    (m : List Char → Option String)
    (hm : ∀ s, litCI lit s = none → m s = none) :
    ∀ cs, containsCI lit cs = false → findMatch m cs = none := by
  intro cs
  induction cs with
  | nil =>
    intro h
    unfold containsCI ciStarts at h
    cases hl : litCI lit [] with
    | some r =>
      rw [hl] at h
      simp at h
    | none =>
      unfold findMatch
      exact hm [] hl
  | cons c cs ih =>
    intro h
    unfold containsCI at h
    rw [Bool.or_eq_false_iff] at h
    obtain ⟨h1, h2⟩ := h
    have hmc : m (c :: cs) = none := by
      apply hm
      unfold ciStarts at h1
      cases hl : litCI lit (c :: cs) with
      | some r =>
        rw [hl] at h1
        simp at h1
      | none => rfl
    simp only [findMatch, hmc]
    exact ih h2

/-- C9 counterexample: the classifier does not key on the leading verb. A
statement opening with a common-table-expression clause (leading verb WITH)
still yields table names, and an INSERT with an upsert clause yields more
than the single target plus the CRUD marker. -/
theorem C9_leading_verb_counterexample :
    (getOperationType ("WITH recent AS (SELECT 1) UPDATE users SET done = 1") = none ∧
      extractTablesFromSql ("WITH recent AS (SELECT 1) UPDATE users SET done = 1") =
        ["users", "ps_crud"]) ∧
    (getOperationType ("INSERT INTO todos(id) VALUES(1) ON CONFLICT(id) DO UPDATE SET id = 1") =
        some RowUpdateType.SQLITE_INSERT ∧
      extractTablesFromSql
          ("INSERT INTO todos(id) VALUES(1) ON CONFLICT(id) DO UPDATE SET id = 1") =
        ["todos", "ps_crud", "SET", "ps_crud"]) := by
  refine ⟨⟨?_, ?_⟩, ?_, ?_⟩ <;> rfl

/-- C9 amended: the classifier scans the whole statement text, not the
leading verb: each of the three verb patterns is matched independently
anywhere in the text; when no verb literal occurs anywhere the result is
empty, and when exactly one pattern matches, capturing a logical table, the
result is that table followed by the CRUD marker table. -/
theorem C9_pattern_scan (sql : String) :
    (containsCI (("INSERT").data) sql.data = false →
      containsCI (("UPDATE").data) sql.data = false →
      containsCI (("DELETE").data) sql.data = false →
      extractTablesFromSql sql = []) ∧
    (∀ t : String, findMatch matchInsertAt sql.data = some t →
      findMatch matchUpdateAt sql.data = none →
      findMatch matchDeleteAt sql.data = none →
      pushesCrudMarker t = true →
      extractTablesFromSql sql = [t, PS_CRUD_TABLE]) ∧
    (∀ t : String, findMatch matchUpdateAt sql.data = some t →
      findMatch matchInsertAt sql.data = none →
      findMatch matchDeleteAt sql.data = none →
      pushesCrudMarker t = true →
      extractTablesFromSql sql = [t, PS_CRUD_TABLE]) ∧
    (∀ t : String, findMatch matchDeleteAt sql.data = some t →
      findMatch matchInsertAt sql.data = none →
      findMatch matchUpdateAt sql.data = none →
      pushesCrudMarker t = true →
      extractTablesFromSql sql = [t, PS_CRUD_TABLE]) := by
  refine ⟨?_, ?_, ?_, ?_⟩
  · intro h1 h2 h3
    have hi := findMatch_none_of_not_containsCI (("INSERT").data) matchInsertAt
      (fun s hs => matchInsertAt_none hs) sql.data h1
    have hu := findMatch_none_of_not_containsCI (("UPDATE").data) matchUpdateAt
      (fun s hs => matchUpdateAt_none hs) sql.data h2
    have hd := findMatch_none_of_not_containsCI (("DELETE").data) matchDeleteAt
      (fun s hs => matchDeleteAt_none hs) sql.data h3
    simp [extractTablesFromSql, hi, hu, hd]
  · intro t hi hu hd hcrud
    simp [extractTablesFromSql, hi, hu, hd, hcrud]
  · intro t hu hi hd hcrud
    simp [extractTablesFromSql, hi, hu, hd, hcrud]
  · intro t hd hi hu hcrud
    simp [extractTablesFromSql, hi, hu, hd, hcrud]

/-- Witness for C9 amended at concrete inputs: a statement containing none
of the three verb literals yields no tables. -/
theorem C9_pattern_scan_witness : extractTablesFromSql ("VACUUM") = [] :=
  (C9_pattern_scan ("VACUUM")).1 (by decide) (by decide) (by decide)

/-- C10: inside a transaction context, executeRaw adds every registered
user table to the modified-table set exactly when the SQL text contains the
control-function substring and at least one user table is registered; for
any other SQL text (whatever its leading verb) it adds nothing. -/
theorem C10_executeRaw_tracking (ut : List String) (txId : String)
    (st : TxState) (sql : String) :
    (strIncludes sql ("powersync_control") = true → ut ≠ [] →
      ∀ u ∈ ut, u ∈ (runTxOp ut txId st (TxOp.executeRaw sql)).st.modifiedTables) ∧
    ((strIncludes sql ("powersync_control") = false ∨ ut = []) →
      (runTxOp ut txId st (TxOp.executeRaw sql)).st.modifiedTables =
        st.modifiedTables) := by
  constructor
  · intro hc hut u hu
    have hne : ut.isEmpty = false := by
      cases hlist : ut with
      | nil => exact absurd hlist hut
      | cons a l => rfl
    have hstep : runTxOp ut txId st (TxOp.executeRaw sql) =
        ⟨{ st with modifiedTables := setAddAll st.modifiedTables ut },
          [Command.getAllCmd sql], []⟩ := by
      have hcond : (strIncludes sql ("powersync_control") && !ut.isEmpty) = true := by
        simp [hc, hne]
      simp [runTxOp, hcond]
    rw [hstep]
    exact mem_setAddAll.mpr (Or.inr hu)
  · intro hc
    have hcond : (strIncludes sql ("powersync_control") && !ut.isEmpty) = false := by
      rcases hc with hc | hc
      · simp [hc]
      · simp [hc]
    have hstep : runTxOp ut txId st (TxOp.executeRaw sql) =
        ⟨st, [Command.getAllCmd sql], []⟩ := by
      simp only [runTxOp]
      rw [if_neg (by simp [hcond])]
    rw [hstep]

/-- Witness for C10 at a concrete input: a control-function call with one
registered user table adds that table to the modified set. -/
theorem C10_executeRaw_tracking_witness :
    ("todos") ∈ (runTxOp ["todos"] ("tx1") ⟨false, []⟩
        (TxOp.executeRaw ("SELECT powersync_control(?, ?)"))).st.modifiedTables :=
  (C10_executeRaw_tracking ["todos"] ("tx1") ⟨false, []⟩
      ("SELECT powersync_control(?, ?)")).1 (by decide) (by decide) ("todos")
    (by decide)
